import Mathlib

/-!
Verification of the prapti command-interpretation core.

The development shallowly embeds `src/prapti/core/command_interpreter.py`
(the executable authority for parsing, dispatch, the exclamation gate and
config-root detection) together with the collaborator interfaces it uses.
The collaborator modules `command_message.py`, `configuration.py`,
`action.py` and `logger.py` are imported by the interpreter but are not
part of the provided sources; the definitions for those are modelled from
the specification (each such definition's doc comment says so).

Modelling conventions:
- Python `None | str | Message` results become `Option CommandResult`.
- Exceptions (`IndexError` from `message_sequence[-1]`, and anything an
  action's function may raise) are modelled with `Except PyExn`.
- The diagnostics logger is an append-only list carried in the state;
  per its contract it never raises.
- The action registry lives in Python inside the opaque
  `private_core_state` slot of `ExecutionState`; here it is passed as an
  explicit parameter (a structure holding functions over the state cannot
  occur inside the state itself).
- Regexes are embedded as deterministic character-list parsers; for the
  two anchored patterns in the source, greedy matching with backtracking
  coincides with the deterministic parse because no name/word character is
  whitespace or `=` (see comments at each parser).
- `\w` is modelled as ASCII alphanumerics plus underscore, and command
  texts are the single markdown lines produced by the document parser, so
  they contain no newline.
-/

set_option maxHeartbeats 1600000

namespace Prapti

/-- Python whitespace class `\s` (ASCII range): space, tab, newline,
carriage return, vertical tab, form feed. -/
def isSpaceChar (c : Char) : Bool :=
  c = ' ' || c = '\t' || c = '\n' || c = '\r' || c = '\x0b' || c = '\x0c'

/-- `\w` of the command regex: ASCII alphanumerics and underscore. -/
def isWordChar (c : Char) : Bool :=
  c.isAlphanum || c = '_'

/-- The character class `[\w\-_./\\]` of `command_regex`: the permitted
characters of an action/field name. -/
def isNameChar (c : Char) : Bool :=
  isWordChar c || c = '-' || c = '.' || c = '/' || c = '\\'

/-- Python `str.strip()`: drop whitespace from both ends. -/
def pyStrip (s : String) : String :=
  (((s.toList.dropWhile isSpaceChar).reverse.dropWhile isSpaceChar).reverse).asString

/-- Modelled from the spec: `SourceLocation` (source_location.py is not in
the provided sources): immutable pointer to a place in the original
document, attached to every diagnostic. -/
structure SourceLocation where
  file : String
  line : Nat
deriving DecidableEq, Repr

/-- Modelled from the spec: one diagnostic accepted by the sink
(logger.py is not in the provided sources): severity, stable code,
human-readable message, offending source location. The sink never raises. -/
structure Diagnostic where
  severity : String
  code : String
  message : String
  loc : SourceLocation
deriving DecidableEq, Repr

/-- Exceptions that can escape the embedded Python code: the `IndexError`
raised by `message_sequence[-1]` on an empty list, and whatever a
dispatched action's function may raise. -/
inductive PyExn where
  | indexError : PyExn
  | actionExn : String → PyExn
deriving DecidableEq, Repr

mutual

/-- Modelled from the spec: a `Message` (command_message.py is not in the
provided sources): role tag, optional speaker name, ordered content items,
enabled flag, privacy flag. -/
inductive Message where
  | mk : (role : String) → (name : Option String) → (content : List ContentItem) →
      (is_enabled : Bool) → (is_private : Bool) → Message

/-- Modelled from the spec: a content item of a message is a plain text
segment or a `Command`. -/
inductive ContentItem where
  | text : String → ContentItem
  | cmd : Command → ContentItem

/-- Modelled from the spec: a `Command` (command_message.py is not in the
provided sources): raw command text, enabled flag, source location, and a
mutable result slot, initially empty, set by the interpreter to nothing, a
plain value, or a newly synthesized message. -/
inductive Command where
  | mk : (text : String) → (is_enabled : Bool) → (source_loc : SourceLocation) →
      (result : Option CommandResult) → Command

/-- The non-`None` values a command's result slot may hold: a plain string
value or a message (Python type `None|str|Message`). -/
inductive CommandResult where
  | str : String → CommandResult
  | msg : Message → CommandResult

end

def Message.role : Message → String
  | .mk r _ _ _ _ => r

def Message.name : Message → Option String
  | .mk _ n _ _ _ => n

def Message.content : Message → List ContentItem
  | .mk _ _ c _ _ => c

def Message.is_enabled : Message → Bool
  | .mk _ _ _ e _ => e

def Message.is_private : Message → Bool
  | .mk _ _ _ _ p => p

def Command.text : Command → String
  | .mk t _ _ _ => t

def Command.is_enabled : Command → Bool
  | .mk _ e _ _ => e

def Command.source_loc : Command → SourceLocation
  | .mk _ _ l _ => l

def Command.result : Command → Option CommandResult
  | .mk _ _ _ r => r

-- Configuration tree --------------------------------------------------------

/-- Modelled from the spec: the semantic types a configuration field may
declare (configuration.py is not in the provided sources). The spec also
lists floats and ordered sequences; floats are outside the embedding
(floating point) and sequences are orthogonal to every claim, so the model
carries booleans, integers and strings. -/
inductive ConfigType where
  | bool : ConfigType
  | int : ConfigType
  | str : ConfigType
deriving DecidableEq, Repr

/-- A value held by a configuration field. -/
inductive ConfigValue where
  | bool : Bool → ConfigValue
  | int : Int → ConfigValue
  | str : String → ConfigValue
deriving DecidableEq, Repr

/-- Modelled from the spec: one field of the root configuration tree: its
declared type, its current value, and the flag recording whether it has
been explicitly assigned at least once since its default (stored alongside
each root configuration field, consulted by VarRef resolution). -/
structure ConfigField where
  type : ConfigType
  value : ConfigValue
  explicitly_assigned : Bool
deriving DecidableEq, Repr

/-- Modelled from the spec: `RootConfiguration` (configuration.py is not
in the provided sources): named fields addressed by their dotted path. -/
structure RootConfiguration where
  fields : List (String × ConfigField)
deriving DecidableEq, Repr

/-- Replace the binding of `n` in an association list (append when
absent; the interpreter only writes fields that were first found). -/
def setAssoc : List (String × ConfigField) → String → ConfigField → List (String × ConfigField)
  | [], n, f => [(n, f)]
  | (k, v) :: rest, n, f =>
      if k = n then (n, f) :: rest else (k, v) :: setAssoc rest n f

/-- Read a non-empty run of decimal digits as a number. -/
def natFromDigits : List Char → Nat → Option Nat
  | [], acc => some acc
  | c :: cs, acc =>
      if c.isDigit then natFromDigits cs (acc * 10 + (c.toNat - 48)) else none

/-- Parse a decimal integer with an optional leading minus sign (the
textual form accepted for integer-typed configuration fields). -/
def parseInt (s : String) : Option Int :=
  match s.toList with
  | [] => none
  | '-' :: rest =>
      match rest with
      | [] => none
      | _ => (natFromDigits rest 0).map (fun n => -(n : Int))
  | l => (natFromDigits l 0).map (fun n => (n : Int))

/-- Modelled from the spec: conversion of the textual right-hand side of
an assignment into the field's declared semantic type; `none` is a
conversion failure. -/
def convertValue : ConfigType → String → Option ConfigValue
  | .bool, s => if s = "true" then some (.bool true)
                else if s = "false" then some (.bool false) else none
  | .int, s => (parseInt s).map .int
  | .str, s => some (.str s)

/-- The reduced run state of the embedding: diagnostics log plus the root
configuration. The source `ExecutionState` (execution_state.py) also
carries file paths, the message sequence, responses and the opaque
`private_core_state` slot holding the action registry; none of those are
read by the interpreted operations except the registry, which is passed
explicitly to every interpreter function. -/
structure ExecutionState where
  log : List Diagnostic
  root_config : RootConfiguration
deriving DecidableEq, Repr

/-- Append an error diagnostic to the state's log (the sink's `error`
entry point; it never raises). -/
def logError (st : ExecutionState) (code msg : String) (loc : SourceLocation) : ExecutionState :=
  ⟨st.log ++ [⟨"error", code, msg, loc⟩], st.root_config⟩

/-- Modelled from the spec: `assign_field` of configuration.py (not in the
provided sources). Resolves the dotted name to a concrete field
(`field-not-found` diagnostic when absent, reported, not raised), converts
the right-hand side to the declared type (`type-conversion-failure`
diagnostic on failure, prior value retained), and on success stores the
value and records the explicit assignment. -/
def assign_field (root : RootConfiguration) (name rhs : String)
    (loc : SourceLocation) (log : List Diagnostic) :
    RootConfiguration × List Diagnostic :=
  match List.lookup name root.fields with
  | none =>
      (root, log ++ [⟨"error", "field-not-found",
        "could not assign to unknown field '" ++ name ++ "'", loc⟩])
  | some fld =>
      match convertValue fld.type rhs with
      | none =>
          (root, log ++ [⟨"error", "type-conversion-failure",
            "could not convert '" ++ rhs ++ "' for field '" ++ name ++ "'", loc⟩])
      | some v =>
          (⟨setAssoc root.fields name ⟨fld.type, v, true⟩⟩, log)

-- Actions -------------------------------------------------------------------

/-- The per-invocation context handed to an action's function. The source
`ActionContext` also exposes `root_config`, `plugin_config` and `log`;
`root_config` and `log` are the state's own fields (views into `state`),
and `plugin_config` belongs to plugin internals outside these claims. -/
structure ActionContext where
  state : ExecutionState
  source_loc : SourceLocation

/-- Modelled from the spec: a registered action (action.py is not in the
provided sources): its namespace-qualified name, its `exclamation_only`
flag, and its function taking `(action_name, raw_args, context)`. The
function returns the possibly-mutated state together with
nothing / a plain value / a message, or raises. -/
structure Action where
  qualified_name : String
  exclamation_only : Bool
  function : String → String → ActionContext → Except PyExn (Option CommandResult × ExecutionState)

/-- The bare (unqualified) name of a qualified action name: the part after
the last dot. -/
def bareName (q : String) : String :=
  ((q.toList.reverse.takeWhile (fun c => c ≠ '.')).reverse).asString

/-- Modelled from the spec: `lookup_action` of action.py (not in the
provided sources): an action is findable by its fully qualified name and
by its bare name; all matches are returned, so a cross-namespace collision
on a bare name yields more than one match. -/
def lookup_action (reg : List Action) (name : String) : List Action :=
  reg.filter (fun a => a.qualified_name = name || bareName a.qualified_name = name)

-- command_interpreter.py ----------------------------------------------------

/-- `_join_alternatives` of command_interpreter.py:
`", ".join(alternatives[:-1]) + " or " + alternatives[-1]`. The source
indexes `alternatives[-1]`, which would raise on an empty list; every call
site passes at least two alternatives, so the model may totalise the empty
case with `""`. -/
def _join_alternatives (alternatives : List String) : String :=
  String.intercalate ", " alternatives.dropLast ++ " or " ++ (alternatives.getLast?.getD "")

/-- `run_action` of command_interpreter.py: look the name up in the
registry; zero matches report `action-not-found`; a unique match is
refused with `excl-only-action-without-excl` when the action is
exclamation-only but the command had no `!`, and otherwise invoked with an
`ActionContext` built from the state; several matches report
`ambiguous-action-name` naming every alternative. -/
def run_action (reg : List Action) (has_exclamation : Bool) (action_name raw_args : String)
    (source_loc : SourceLocation) (state : ExecutionState) :
    Except PyExn (Option CommandResult × ExecutionState) :=
  match lookup_action reg action_name with
  | [] =>
      .ok (none, logError state "action-not-found"
        ("couldn't run action '" ++ action_name ++ "'. action not found.") source_loc)
  | [action] =>
      if action.exclamation_only && !has_exclamation then
        .ok (none, logError state "excl-only-action-without-excl"
          ("didn't run action '" ++ action_name ++ "'. action is !-only but written without a '!'")
          source_loc)
      else
        action.function action_name raw_args ⟨state, source_loc⟩
  | several =>
      .ok (none, logError state "ambiguous-action-name"
        ("didn't run action '" ++ action_name ++ "'. action name is ambiguous, did you mean: "
          ++ _join_alternatives (several.map Action.qualified_name)) source_loc)

/-- The parsed form produced by a successful match of `command_regex`:
group 1 (`!` present), group 2 (the name), group 3 (`=` present), group 4
(the raw remainder, before stripping). -/
structure CommandMatch where
  has_exclamation : Bool
  name : String
  equals_sign : Bool
  rhs_raw : String
deriving DecidableEq, Repr

/-- The matcher of `command_regex` from command_interpreter.py:
`^(!)?\s*([\w\-_./\\]+)(?:\s*(=)|\s+|$)(.*)` under `re.match`.

The greedy backtracking search is deterministic for this pattern: `!` is
not a name character, no whitespace character is a name character, and `=`
is neither, so shrinking the optional `!`, the leading `\s*` or the greedy
name run can never let the tail of the pattern match; inside the
alternation, branch `\s*(=)` succeeds exactly when the first
non-whitespace character after the name is `=`, branch `\s+` exactly when
a whitespace character follows the name (group 4 then starts after the
greedy whitespace run, which `_interpret_command`'s `strip()` makes
irrelevant), and branch `$` exactly at end of input. -/
def command_regex_match (s : String) : Option CommandMatch :=
  let cs := s.toList
  let hasExcl := decide (cs.head? = some '!')
  let cs1 := if hasExcl then cs.tail else cs
  let cs2 := cs1.dropWhile isSpaceChar
  let nameChars := cs2.takeWhile isNameChar
  let cs3 := cs2.dropWhile isNameChar
  if nameChars.isEmpty then none
  else
    match cs3.dropWhile isSpaceChar with
    | '=' :: rest => some ⟨hasExcl, nameChars.asString, true, rest.asString⟩
    | _ =>
        match cs3 with
        | [] => some ⟨hasExcl, nameChars.asString, false, ""⟩
        | c :: _ =>
            if isSpaceChar c then
              some ⟨hasExcl, nameChars.asString, false, (cs3.dropWhile isSpaceChar).asString⟩
            else none

/-- `_interpret_command` of command_interpreter.py: parse the command text
(`unknown-command` diagnostic on parse failure); commands with `!` only
run in the final message; an assignment with an all-whitespace right-hand
side is reported as `skiping-empty-assignment` and skipped, otherwise
`assign_field` runs; a non-assignment dispatches through `run_action`,
whose value becomes the result. -/
def _interpret_command (reg : List Action) (command_text : String) (is_final_message : Bool)
    (source_loc : SourceLocation) (state : ExecutionState) :
    Except PyExn (Option CommandResult × ExecutionState) :=
  match command_regex_match command_text with
  | some m =>
      let rhs := pyStrip m.rhs_raw
      if !m.has_exclamation || (m.has_exclamation && is_final_message) then
        if m.equals_sign then
          if rhs.length = 0 then
            .ok (none, logError state "skiping-empty-assignment"
              ("skipping configuration assignment with no right-hand-side '" ++ command_text ++ "'")
              source_loc)
          else
            match assign_field state.root_config m.name rhs source_loc state.log with
            | (rc, lg) => .ok (none, ⟨lg, rc⟩)
        else
          run_action reg m.has_exclamation m.name rhs source_loc state
      else
        .ok (none, state)
  | none =>
      .ok (none, logError state "unknown-command"
        ("couldn't interpret command '" ++ command_text ++ "'") source_loc)

/-- The inner loop of `interpret_commands` over one message's content:
enabled commands have their result slot set to `_interpret_command`'s
value; text items and disabled commands are untouched. -/
def interpretItems (reg : List Action) (is_final_message : Bool) :
    List ContentItem → ExecutionState → Except PyExn (List ContentItem × ExecutionState)
  | [], st => .ok ([], st)
  | .text s :: rest, st =>
      match interpretItems reg is_final_message rest st with
      | .error exn => .error exn
      | .ok (rest2, st2) => .ok (.text s :: rest2, st2)
  | .cmd (.mk t e l r) :: rest, st =>
      if e then
        match _interpret_command reg t is_final_message l st with
        | .error exn => .error exn
        | .ok (res, st2) =>
            match interpretItems reg is_final_message rest st2 with
            | .error exn => .error exn
            | .ok (rest2, st3) => .ok (.cmd (.mk t e l res) :: rest2, st3)
      else
        match interpretItems reg is_final_message rest st with
        | .error exn => .error exn
        | .ok (rest2, st2) => .ok (.cmd (.mk t e l r) :: rest2, st2)

/-- The outer loop of `interpret_commands`: messages in sequence order,
only enabled ones visited; the final-message flag holds exactly for the
last message of a final sequence (`message is final_message` on distinct
message objects is positional identity). -/
def interpretMessages (reg : List Action) (is_final_sequence : Bool) :
    List Message → ExecutionState → Except PyExn (List Message × ExecutionState)
  | [], st => .ok ([], st)
  | .mk role nm content e p :: rest, st =>
      if e then
        match interpretItems reg (is_final_sequence && rest.isEmpty) content st with
        | .error exn => .error exn
        | .ok (content2, st2) =>
            match interpretMessages reg is_final_sequence rest st2 with
            | .error exn => .error exn
            | .ok (rest2, st3) => .ok (.mk role nm content2 e p :: rest2, st3)
      else
        match interpretMessages reg is_final_sequence rest st with
        | .error exn => .error exn
        | .ok (rest2, st2) => .ok (.mk role nm content e p :: rest2, st2)

/-- `interpret_commands` of command_interpreter.py. The source first
evaluates `message_sequence[-1] if is_final_sequence else None`, so a
final pass over an empty sequence raises `IndexError` before any message
is visited; then every enabled command of every enabled message is
interpreted and its result stored. -/
def interpret_commands (reg : List Action) (message_sequence : List Message)
    (state : ExecutionState) (is_final_sequence : Bool) :
    Except PyExn (List Message × ExecutionState) :=
  if is_final_sequence && message_sequence.isEmpty then
    .error .indexError
  else
    interpretMessages reg is_final_sequence message_sequence state

-- `% config_root = true` helper ---------------------------------------------

/-- Strip a literal character-list from the front: `some` holds the
remainder on success. -/
def stripLit : List Char → List Char → Option (List Char)
  | [], l => some l
  | _ :: _, [] => none
  | p :: ps, c :: cs => if p = c then stripLit ps cs else none

/-- The characters of the literal `prapti.` of `config_root_regex`. -/
def praptiDotChars : List Char := ['p', 'r', 'a', 'p', 't', 'i', '.']

/-- The characters of the literal `config_root` of `config_root_regex`. -/
def configRootChars : List Char := ['c', 'o', 'n', 'f', 'i', 'g', '_', 'r', 'o', 'o', 't']

/-- The characters of the literal `true` of `config_root_regex`. -/
def trueChars : List Char := ['t', 'r', 'u', 'e']

/-- The matcher of `config_root_regex` from command_interpreter.py:
`^\s*(prapti\.)?(config_root)\s*(=)\s*(true)\s*` under `re.match` (a
prefix match: trailing text after `true` is permitted, and the final `\s*`
always succeeds). Deterministic reading of the backtracking search:
`prapti.` and `config_root` start with distinct non-whitespace letters, so
the optional group matches exactly when the literal `prapti.` is present,
and each `\s*` consumes the maximal whitespace run because the following
literal starts with a non-whitespace character. -/
def config_root_match (cs : List Char) : Bool :=
  let cs1 := cs.dropWhile isSpaceChar
  let cs2 := match stripLit praptiDotChars cs1 with
    | some r => r
    | none => cs1
  match stripLit configRootChars cs2 with
  | none => false
  | some r =>
      match stripLit ['='] (r.dropWhile isSpaceChar) with
      | none => false
      | some r2 => (stripLit trueChars (r2.dropWhile isSpaceChar)).isSome

/-- `is_config_root` of command_interpreter.py: scan the message sequence
and return true as soon as an enabled command of an enabled message
matches `config_root_regex`; nothing is executed or interpreted and no
state is touched (the function reads the sequence only). -/
def is_config_root : List Message → Bool
  | [] => false
  | m :: rest =>
      (m.is_enabled && m.content.any (fun item =>
        match item with
        | .cmd c => c.is_enabled && config_root_match c.text.toList
        | .text _ => false))
      || is_config_root rest

-- configuration.py: VarRef resolution ---------------------------------------

/-- Modelled from the spec: `VarRef` (configuration.py is not in the
provided sources): a declared late-bound indirection naming the root
configuration path whose value is read at resolution time. -/
structure VarRef where
  target : String
deriving DecidableEq, Repr

/-- Modelled from the spec: a plugin/responder configuration object as the
interpreter sees it: named fields with their locally assigned values. -/
structure PluginConfig where
  fields : List (String × ConfigValue)
deriving DecidableEq, Repr

/-- The effective value of one field under VarRef resolution: the
referenced root field's value when that field was explicitly assigned,
else the local value (fields without a VarRef, and references to absent
root paths, keep the local value). -/
def resolveValue (var_refs : List (String × VarRef)) (root : RootConfiguration)
    (n : String) (v : ConfigValue) : ConfigValue :=
  match List.lookup n var_refs with
  | some vr =>
      match List.lookup vr.target root.fields with
      | some fld => if fld.explicitly_assigned then fld.value else v
      | none => v
  | none => v

/-- Modelled from the spec: `resolve_var_refs` of configuration.py (not in
the provided sources). `var_refs` is the `(local_field_name, VarRef)` list
the plugin registered at construction time, carried with the configuration
object. Each VarRef-backed field's effective value is the current value of
the referenced root path if that path has been explicitly assigned at
least once since its default, and otherwise the field's own locally
assigned value; fields without a VarRef (and references to absent root
paths) are untouched. Resolution is a plain function of the current root
configuration: nothing is cached across reads. -/
def resolve_var_refs (cfg : PluginConfig) (var_refs : List (String × VarRef))
    (root : RootConfiguration) : PluginConfig :=
  ⟨cfg.fields.map (fun p => (p.1, resolveValue var_refs root p.1 p.2))⟩

-- Concrete fixtures used by witnesses and counterexamples --------------------

/-- A fixed source location for concrete runs. -/
def loc0 : SourceLocation := ⟨"chat.md", 3⟩

/-- A small concrete state: empty log, one integer field `x` still at its
default. -/
def st0 : ExecutionState := ⟨[], ⟨[("x", ⟨.int, .int 0, false⟩)]⟩⟩

/-- A benign action: returns a string result, touches nothing. -/
def actA : Action := ⟨"ns1.act", false, fun _ _ ctx => .ok (some (.str "A"), ctx.state)⟩

/-- A second action whose bare name collides with `actA`'s. -/
def actB : Action := ⟨"ns2.act", false, fun _ _ ctx => .ok (some (.str "B"), ctx.state)⟩

/-- An exclamation-only action (a "dangerous" side-effecting action). -/
def exclAct : Action := ⟨"test.net", true, fun _ _ ctx => .ok (some (.str "sent"), ctx.state)⟩

/-- An action that answers with a string built from its raw arguments. -/
def helloAct : Action :=
  ⟨"test.hello", false, fun _ args ctx => .ok (some (.str ("hi:" ++ args)), ctx.state)⟩

/-- An action whose function raises. -/
def boomAct : Action := ⟨"test.boom", false, fun _ _ _ => .error (.actionExn "boom")⟩

/-- A message holding an action command that raises followed by a
well-formed assignment. -/
def boomMsgs : List Message :=
  [.mk "user" none
    [.cmd (.mk "boom" true loc0 none), .cmd (.mk "x = 1" true loc0 none)] true false]

/-- A message holding one benign action command and one assignment. -/
def helloMsgs : List Message :=
  [.mk "user" none
    [.cmd (.mk "hello there" true loc0 none), .cmd (.mk "x = 7" true loc0 none)] true false]

/-- A responder configuration with a local `temperature` default of 1. -/
def cfgT : PluginConfig := ⟨[("temperature", .int 1)]⟩

/-- The VarRef registration binding local `temperature` to the root path
`prapti.temperature`. -/
def vrT : List (String × VarRef) := [("temperature", ⟨"prapti.temperature"⟩)]

/-- A root configuration whose `prapti.temperature` still holds its
default. -/
def rootT : RootConfiguration := ⟨[("prapti.temperature", ⟨.int, .int 0, false⟩)]⟩

-- Spec-side predicates used to state claims ----------------------------------

/-- A content item is inert to the exclamation gate when it is plain text
or a disabled command; otherwise the gate defers it exactly when its text
parses with a leading `!`. -/
def itemInertOrExcl : ContentItem → Bool
  | .text _ => true
  | .cmd c => !c.is_enabled ||
      (match command_regex_match c.text with
       | some m => m.has_exclamation
       | none => false)

/-- Every enabled command of every enabled message parses with a leading
`!`. -/
def allExclCommands (msgs : List Message) : Bool :=
  msgs.all (fun m => !m.is_enabled || m.content.all itemInertOrExcl)

/-- The shape `interpret_commands` leaves a content item in when the
command it holds was visited but deferred: an enabled command's result
slot is written (with nothing); everything else is untouched. -/
def clearItem : ContentItem → ContentItem
  | .cmd (.mk t true l _) => .cmd (.mk t true l none)
  | item => item

/-- The message counterpart of `clearItem`: disabled messages are not
visited at all. -/
def clearMessage : Message → Message
  | .mk role nm content e p => .mk role nm (if e then content.map clearItem else content) e p

/-- Every action function of the registry returns instead of raising, for
all inputs (the discipline the spec's claim assumes of collaborators). -/
def NonRaising (reg : List Action) : Prop :=
  ∀ a ∈ reg, ∀ n args ctx, ∃ out, a.function n args ctx = Except.ok out

/-- A whitespace-only character run. -/
def SpaceRun (l : List Char) : Prop := ∀ c ∈ l, isSpaceChar c = true

/-- The claim's reading of the fixed pattern
`(prapti.)?config_root = true` under prefix matching, stated from the
spec's words rather than from the code: optional leading whitespace, an
optional literal `prapti.`, the literal `config_root`, `=` surrounded by
optional whitespace, the literal `true`, and arbitrary trailing text. -/
def ConfigRootSpec (cs : List Char) : Prop :=
  ∃ w1 opt w2 w3 rest, (opt = [] ∨ opt = praptiDotChars) ∧
    SpaceRun w1 ∧ SpaceRun w2 ∧ SpaceRun w3 ∧
    cs = w1 ++ opt ++ configRootChars ++ w2 ++ '=' :: (w3 ++ trueChars ++ rest)

/-- Some enabled message holds an enabled command whose text matches the
config-root pattern (the spec-side characterisation of `is_config_root`). -/
def ConfigRootSpecMsgs (msgs : List Message) : Prop :=
  ∃ m ∈ msgs, m.is_enabled = true ∧
    ∃ c : Command, ContentItem.cmd c ∈ m.content ∧ c.is_enabled = true ∧
      ConfigRootSpec c.text.toList

-- Helper lemmas --------------------------------------------------------------

theorem lookup_setAssoc_self (l : List (String × ConfigField)) (n : String) (f : ConfigField) :
    List.lookup n (setAssoc l n f) = some f := by
  induction l with
  | nil => simp [setAssoc, List.lookup]
  | cons p rest ih =>
      rcases p with ⟨k, v⟩
      by_cases hk : k = n
      · simp [setAssoc, hk, List.lookup]
      · have hnk : (n == k) = false := beq_eq_false_iff_ne.mpr (Ne.symm hk)
        simp [setAssoc, hk, List.lookup, ih, hnk]

theorem setAssoc_idem (l : List (String × ConfigField)) (n : String) (f : ConfigField) :
    setAssoc (setAssoc l n f) n f = setAssoc l n f := by
  induction l with
  | nil => simp [setAssoc]
  | cons p rest ih =>
      rcases p with ⟨k, v⟩
      by_cases hk : k = n
      · simp [setAssoc, hk]
      · simp [setAssoc, hk, ih]

theorem lookup_resolve_var_refs (var_refs : List (String × VarRef))
    (root : RootConfiguration) (l : List (String × ConfigValue)) (n : String) :
    List.lookup n (resolve_var_refs ⟨l⟩ var_refs root).fields =
      (List.lookup n l).map (resolveValue var_refs root n) := by
  induction l with
  | nil => rfl
  | cons p rest ih =>
      rcases p with ⟨k, v⟩
      simp only [resolve_var_refs, List.map_cons, List.lookup] at ih ⊢
      cases hnk : (n == k)
      · simpa using ih
      · have hk : n = k := eq_of_beq hnk
        subst hk
        simp

theorem excl_nonfinal_skip (reg : List Action) (text : String) (m : CommandMatch)
    (loc : SourceLocation) (st : ExecutionState)
    (hp : command_regex_match text = some m) (he : m.has_exclamation = true) :
    _interpret_command reg text false loc st = .ok (none, st) := by
  unfold _interpret_command
  rw [hp]
  simp [he]

theorem interpretItems_allExcl (reg : List Action) (items : List ContentItem)
    (st : ExecutionState) (h : items.all itemInertOrExcl = true) :
    interpretItems reg false items st = .ok (items.map clearItem, st) := by
  induction items with
  | nil => rfl
  | cons item rest ih =>
      rw [List.all_cons, Bool.and_eq_true] at h
      obtain ⟨hitem, hrest⟩ := h
      match item with
      | .text s =>
          simp only [interpretItems, ih hrest]
          rfl
      | .cmd (.mk t e l r) =>
          cases e with
          | false =>
              simp only [interpretItems, Bool.false_eq_true, if_false, ih hrest]
              rfl
          | true =>
              simp only [itemInertOrExcl, Command.is_enabled, Command.text,
                Bool.not_true, Bool.false_or] at hitem
              rcases hm : command_regex_match t with _ | m
              · rw [hm] at hitem
                exact absurd hitem (by simp)
              · rw [hm] at hitem
                simp only [interpretItems, if_true,
                  excl_nonfinal_skip reg t m l st hm hitem, ih hrest]
                rfl

theorem interpretMessages_allExcl (reg : List Action) (msgs : List Message)
    (st : ExecutionState) (h : allExclCommands msgs = true) :
    interpretMessages reg false msgs st = .ok (msgs.map clearMessage, st) := by
  induction msgs with
  | nil => rfl
  | cons msg rest ih =>
      rw [allExclCommands, List.all_cons, Bool.and_eq_true] at h
      obtain ⟨hmsg, hrest⟩ := h
      have hrest2 : allExclCommands rest = true := hrest
      match msg with
      | .mk role nm content e p =>
          cases e with
          | false =>
              simp only [interpretMessages, Bool.false_eq_true, if_false, ih hrest2]
              simp [clearMessage]
          | true =>
              simp only [Message.is_enabled, Bool.not_true, Bool.false_or] at hmsg
              simp only [interpretMessages, if_true, Bool.false_and,
                interpretItems_allExcl reg content st hmsg, ih hrest2]
              simp [clearMessage]

theorem run_action_ok (reg : List Action) (hnr : NonRaising reg) (he : Bool)
    (name args : String) (loc : SourceLocation) (st : ExecutionState) :
    ∃ out, run_action reg he name args loc st = Except.ok out := by
  unfold run_action
  rcases hl : lookup_action reg name with _ | ⟨a, _ | ⟨b, rest⟩⟩
  · exact ⟨_, rfl⟩
  · have hmem : a ∈ reg := by
      have : a ∈ lookup_action reg name := by rw [hl]; exact List.mem_singleton.mpr rfl
      exact List.mem_of_mem_filter this
    dsimp only
    by_cases hc : (a.exclamation_only && !he) = true
    · rw [if_pos hc]
      exact ⟨_, rfl⟩
    · rw [if_neg hc]
      exact hnr a hmem name args ⟨st, loc⟩
  · exact ⟨_, rfl⟩

theorem interpret_command_ok (reg : List Action) (hnr : NonRaising reg) (text : String)
    (fm : Bool) (loc : SourceLocation) (st : ExecutionState) :
    ∃ out, _interpret_command reg text fm loc st = Except.ok out := by
  unfold _interpret_command
  rcases hp : command_regex_match text with _ | m
  · exact ⟨_, rfl⟩
  · dsimp only
    by_cases hg : (!m.has_exclamation || (m.has_exclamation && fm)) = true
    · rw [if_pos hg]
      by_cases heq2 : m.equals_sign = true
      · rw [if_pos heq2]
        by_cases hlen : (pyStrip m.rhs_raw).length = 0
        · rw [if_pos hlen]
          exact ⟨_, rfl⟩
        · rw [if_neg hlen]
          rcases h2 : assign_field st.root_config m.name (pyStrip m.rhs_raw) loc st.log
            with ⟨rc, lg⟩
          exact ⟨_, rfl⟩
      · rw [if_neg heq2]
        exact run_action_ok reg hnr m.has_exclamation m.name (pyStrip m.rhs_raw) loc st
    · rw [if_neg hg]
      exact ⟨_, rfl⟩

theorem interpretItems_ok (reg : List Action) (hnr : NonRaising reg) (fm : Bool)
    (items : List ContentItem) (st : ExecutionState) :
    ∃ out, interpretItems reg fm items st = Except.ok out := by
  induction items generalizing st with
  | nil => exact ⟨_, rfl⟩
  | cons item rest ih =>
      match item with
      | .text s =>
          obtain ⟨⟨rest2, st2⟩, h⟩ := ih st
          rw [interpretItems, h]
          exact ⟨_, rfl⟩
      | .cmd (.mk t e l r) =>
          cases e with
          | false =>
              obtain ⟨⟨rest2, st2⟩, h⟩ := ih st
              rw [interpretItems, if_neg (by simp), h]
              exact ⟨_, rfl⟩
          | true =>
              obtain ⟨⟨res, st2⟩, h1⟩ := interpret_command_ok reg hnr t fm l st
              obtain ⟨⟨rest2, st3⟩, h2⟩ := ih st2
              rw [interpretItems, if_pos rfl, h1]
              dsimp only
              rw [h2]
              exact ⟨_, rfl⟩

theorem interpretMessages_ok (reg : List Action) (hnr : NonRaising reg) (fs : Bool)
    (msgs : List Message) (st : ExecutionState) :
    ∃ out, interpretMessages reg fs msgs st = Except.ok out := by
  induction msgs generalizing st with
  | nil => exact ⟨_, rfl⟩
  | cons msg rest ih =>
      match msg with
      | .mk role nm content e p =>
          cases e with
          | false =>
              obtain ⟨⟨rest2, st2⟩, h⟩ := ih st
              rw [interpretMessages, if_neg (by simp), h]
              exact ⟨_, rfl⟩
          | true =>
              obtain ⟨⟨content2, st2⟩, h1⟩ :=
                interpretItems_ok reg hnr (fs && rest.isEmpty) content st
              obtain ⟨⟨rest2, st3⟩, h2⟩ := ih st2
              rw [interpretMessages, if_pos rfl, h1]
              dsimp only
              rw [h2]
              exact ⟨_, rfl⟩

theorem stripLit_eq_some (p : List Char) : ∀ l r : List Char,
    (stripLit p l = some r ↔ l = p ++ r) := by
  induction p with
  | nil => intro l r; simp [stripLit]
  | cons c ps ih =>
      intro l r
      cases l with
      | nil => simp [stripLit]
      | cons d ds =>
          by_cases hc : c = d
          · subst hc
            simp [stripLit, ih]
          · simp [stripLit, hc, Ne.symm hc]

theorem stripLit_self (p l : List Char) : stripLit p (p ++ l) = some l :=
  (stripLit_eq_some p (p ++ l) l).mpr rfl

theorem spaceRun_takeWhile (l : List Char) : SpaceRun (l.takeWhile isSpaceChar) :=
  fun _ hc => List.mem_takeWhile_imp hc

theorem takeDropDecomp (l : List Char) :
    l = l.takeWhile isSpaceChar ++ l.dropWhile isSpaceChar :=
  (List.takeWhile_append_dropWhile isSpaceChar l).symm

theorem dropWhile_spaceRun (w l : List Char) (hw : SpaceRun w) :
    (w ++ l).dropWhile isSpaceChar = l.dropWhile isSpaceChar := by
  induction w with
  | nil => rfl
  | cons c ws ih =>
      have hc : isSpaceChar c = true := hw c (List.mem_cons_self c ws)
      have hws : SpaceRun ws := fun d hd => hw d (List.mem_cons_of_mem c hd)
      simp [List.dropWhile_cons, hc, ih hws]

theorem space_lit_split (lit l r : List Char)
    (h : stripLit lit (l.dropWhile isSpaceChar) = some r) :
    ∃ w, SpaceRun w ∧ l = w ++ (lit ++ r) := by
  refine ⟨l.takeWhile isSpaceChar, spaceRun_takeWhile l, ?_⟩
  have hd : l.dropWhile isSpaceChar = lit ++ r := (stripLit_eq_some lit _ r).mp h
  conv_lhs => rw [takeDropDecomp l]
  rw [hd]

theorem config_root_spec_of_match (cs : List Char) (h : config_root_match cs = true) :
    ConfigRootSpec cs := by
  simp only [config_root_match] at h
  rcases hA : stripLit praptiDotChars (cs.dropWhile isSpaceChar) with _ | r
  all_goals rw [hA] at h
  · -- no `prapti.` literal: the optional group is empty
    rcases hB : stripLit configRootChars (cs.dropWhile isSpaceChar) with _ | rr
    all_goals dsimp only at h; rw [hB] at h
    · exact absurd h (by simp)
    · obtain ⟨w1, hw1, hcs⟩ := space_lit_split configRootChars cs rr hB
      dsimp only at h
      rcases hC : stripLit ['='] (rr.dropWhile isSpaceChar) with _ | r2
      all_goals rw [hC] at h
      · exact absurd h (by simp)
      · obtain ⟨w2, hw2, hrr⟩ := space_lit_split ['='] rr r2 hC
        dsimp only at h
        rw [Option.isSome_iff_exists] at h
        obtain ⟨rest, hD⟩ := h
        obtain ⟨w3, hw3, hr2⟩ := space_lit_split trueChars r2 rest hD
        refine ⟨w1, [], w2, w3, rest, Or.inl rfl, hw1, hw2, hw3, ?_⟩
        rw [hcs, hrr, hr2]
        simp
  · -- the `prapti.` literal is present
    have hcs1 : cs.dropWhile isSpaceChar = praptiDotChars ++ r :=
      (stripLit_eq_some praptiDotChars _ r).mp hA
    rcases hB : stripLit configRootChars r with _ | rr
    all_goals dsimp only at h; rw [hB] at h
    · exact absurd h (by simp)
    · have hr : r = configRootChars ++ rr := (stripLit_eq_some configRootChars r rr).mp hB
      dsimp only at h
      rcases hC : stripLit ['='] (rr.dropWhile isSpaceChar) with _ | r2
      all_goals rw [hC] at h
      · exact absurd h (by simp)
      · obtain ⟨w2, hw2, hrr⟩ := space_lit_split ['='] rr r2 hC
        dsimp only at h
        rw [Option.isSome_iff_exists] at h
        obtain ⟨rest, hD⟩ := h
        obtain ⟨w3, hw3, hr2⟩ := space_lit_split trueChars r2 rest hD
        refine ⟨cs.takeWhile isSpaceChar, praptiDotChars, w2, w3, rest, Or.inr rfl,
          spaceRun_takeWhile cs, hw2, hw3, ?_⟩
        conv_lhs => rw [takeDropDecomp cs]
        rw [hcs1, hr, hrr, hr2]
        simp

theorem dropWhile_configRoot (l : List Char) :
    (configRootChars ++ l).dropWhile isSpaceChar = configRootChars ++ l := rfl

theorem dropWhile_praptiDot (l : List Char) :
    (praptiDotChars ++ l).dropWhile isSpaceChar = praptiDotChars ++ l := rfl

theorem dropWhile_eqChar (l : List Char) :
    ('=' :: l).dropWhile isSpaceChar = '=' :: l := rfl

theorem dropWhile_trueLit (l : List Char) :
    (trueChars ++ l).dropWhile isSpaceChar = trueChars ++ l := rfl

theorem stripLit_praptiDot_at_configRoot (l : List Char) :
    stripLit praptiDotChars (configRootChars ++ l) = none := rfl

theorem config_root_match_of_spec (cs : List Char) (h : ConfigRootSpec cs) :
    config_root_match cs = true := by
  obtain ⟨w1, opt, w2, w3, rest, hopt, hw1, hw2, hw3, rfl⟩ := h
  simp only [config_root_match, List.append_assoc, List.cons_append]
  rw [dropWhile_spaceRun w1 _ hw1]
  rcases hopt with rfl | rfl
  · rw [List.nil_append, dropWhile_configRoot, stripLit_praptiDot_at_configRoot]
    dsimp only
    rw [stripLit_self configRootChars]
    dsimp only
    rw [dropWhile_spaceRun w2 _ hw2, dropWhile_eqChar]
    rw [show stripLit ['='] ('=' :: (w3 ++ (trueChars ++ rest)))
          = some (w3 ++ (trueChars ++ rest)) from rfl]
    dsimp only
    rw [dropWhile_spaceRun w3 _ hw3, dropWhile_trueLit, stripLit_self trueChars]
    rfl
  · rw [dropWhile_praptiDot, stripLit_self praptiDotChars]
    dsimp only
    rw [stripLit_self configRootChars]
    dsimp only
    rw [dropWhile_spaceRun w2 _ hw2, dropWhile_eqChar]
    rw [show stripLit ['='] ('=' :: (w3 ++ (trueChars ++ rest)))
          = some (w3 ++ (trueChars ++ rest)) from rfl]
    dsimp only
    rw [dropWhile_spaceRun w3 _ hw3, dropWhile_trueLit, stripLit_self trueChars]
    rfl

theorem config_root_match_iff (cs : List Char) :
    config_root_match cs = true ↔ ConfigRootSpec cs :=
  ⟨config_root_spec_of_match cs, config_root_match_of_spec cs⟩

theorem config_root_item_iff (item : ContentItem) :
    (match item with
      | .cmd c => c.is_enabled && config_root_match c.text.toList
      | .text _ => false) = true ↔
    ∃ c, item = ContentItem.cmd c ∧ c.is_enabled = true ∧ ConfigRootSpec c.text.toList := by
  cases item with
  | text s => simp
  | cmd c => simp [Bool.and_eq_true, config_root_match_iff]

-- Claim theorems -------------------------------------------------------------

/-- C1: the exclamation timing gate. A command whose text parses with a
leading `!` is skipped with no effect whatsoever — result nothing, no
assignment, no dispatch, no diagnostic, state returned untouched — on any
pass where it is not in the final message; the loop hands
`is_final_message = true` only to the last message of a pass flagged
`is_final_sequence`, so on a non-final pass (third conjunct) every such
command of the whole sequence is deferred and only result slots of
visited commands are written. A command without `!` behaves identically
whatever the final-message flag, so it executes on every pass that visits
it. -/
theorem exclamation_gate (reg : List Action) :
    (∀ text m loc st, command_regex_match text = some m → m.has_exclamation = true →
       _interpret_command reg text false loc st = .ok (none, st)) ∧
    (∀ text m loc st fm fm2, command_regex_match text = some m → m.has_exclamation = false →
       _interpret_command reg text fm loc st = _interpret_command reg text fm2 loc st) ∧
    (∀ msgs st, allExclCommands msgs = true →
       interpret_commands reg msgs st false = .ok (msgs.map clearMessage, st)) := by
  refine ⟨?_, ?_, ?_⟩
  · intro text m loc st hp he
    exact excl_nonfinal_skip reg text m loc st hp he
  · intro text m loc st fm fm2 hp he
    unfold _interpret_command
    rw [hp]
    simp [he]
  · intro msgs st h
    unfold interpret_commands
    simp only [Bool.false_and, if_false]
    exact interpretMessages_allExcl reg msgs st h

/-- C1 witness: `!go` parses with `!` and is skipped untouched on a
non-final message; `x = 5` parses without `!` and interprets identically
under both final-message flags; a one-message sequence holding only the
enabled command `!go` passes a non-final interpretation with only that
result slot written (to nothing) and the state untouched. -/
theorem exclamation_gate_witness :
    _interpret_command [] "!go" false loc0 st0 = .ok (none, st0) ∧
    _interpret_command [] "x = 5" true loc0 st0 = _interpret_command [] "x = 5" false loc0 st0 ∧
    interpret_commands [] [.mk "user" none [.cmd (.mk "!go" true loc0 none)] true false] st0 false
      = .ok ([.mk "user" none [.cmd (.mk "!go" true loc0 none)] true false], st0) :=
  ⟨(exclamation_gate []).1 "!go" ⟨true, "go", false, ""⟩ loc0 st0 rfl rfl,
   (exclamation_gate []).2.1 "x = 5" ⟨false, "x", true, " 5"⟩ loc0 st0 true false rfl rfl,
   (exclamation_gate []).2.2 [.mk "user" none [.cmd (.mk "!go" true loc0 none)] true false]
     st0 rfl⟩

/-- C3 counterexample: an exception raised inside a dispatched action's
function is not contained by the interpreter — `run_action` calls the
function with no handler — so with the raising action `test.boom`, a
sequence whose first enabled command dispatches it propagates the
exception to the caller and the following assignment command is never
interpreted, contradicting the claim that no error from one command's
processing can prevent the remaining commands from being interpreted. -/
theorem action_exception_aborts_interpretation :
    interpret_commands [boomAct] boomMsgs st0 false = .error (.actionExn "boom") := rfl

/-- C3 (amended): no error arising from user input — unparsable command,
empty assignment right-hand side, unknown field, failed conversion,
unknown or ambiguous action name, exclamation refusal — is raised to the
caller: it is reported through the diagnostics sink and interpretation
returns normally, covering every remaining command. This holds whenever
the dispatched action functions themselves return rather than raise (and
the final-pass flag is not combined with an empty sequence); an exception
from an action's function, by contrast, propagates. -/
theorem diagnostics_never_abort_interpretation (reg : List Action) (msgs : List Message)
    (st : ExecutionState) (fs : Bool) (hnr : NonRaising reg)
    (hne : fs = true → msgs ≠ []) :
    ∃ out, interpret_commands reg msgs st fs = Except.ok out := by
  unfold interpret_commands
  have hcond : (fs && msgs.isEmpty) = false := by
    cases fs
    · rfl
    · cases hm : msgs
      · exact absurd hm (hne rfl)
      · rfl
  rw [hcond]
  exact interpretMessages_ok reg hnr fs msgs st

/-- C3 witness: over a registry holding only the non-raising `test.hello`,
a sequence containing an unparsable command, an unknown-field assignment,
an unknown action and a benign action interprets to completion without
raising. -/
theorem diagnostics_never_abort_interpretation_witness :
    ∃ out, interpret_commands [helloAct]
      [.mk "user" none
        [.cmd (.mk ":::" true loc0 none), .cmd (.mk "nofield = 1" true loc0 none),
         .cmd (.mk "ghost arg" true loc0 none), .cmd (.mk "hello there" true loc0 none)]
        true false]
      st0 true = Except.ok out := by
  apply diagnostics_never_abort_interpretation
  · intro a ha n args ctx
    rw [List.mem_singleton.mp ha]
    exact ⟨_, rfl⟩
  · intro h
    simp

/-- C9: `is_config_root` returns true exactly when some enabled message
contains an enabled command whose text matches the fixed pattern
`(prapti.)?config_root = true` (optional whitespace around the tokens,
prefix matching), stated through the spec-side decomposition
`ConfigRootSpec`; the scan is a plain Boolean function of the message
sequence — it takes no state, resolves nothing and dispatches nothing, so
it can have no side effect. -/
theorem is_config_root_iff (msgs : List Message) :
    is_config_root msgs = true ↔ ConfigRootSpecMsgs msgs := by
  induction msgs with
  | nil => simp [is_config_root, ConfigRootSpecMsgs]
  | cons m rest ih =>
      rw [is_config_root, Bool.or_eq_true, ih]
      constructor
      · rintro (h | h)
        · rw [Bool.and_eq_true] at h
          obtain ⟨he, hany⟩ := h
          obtain ⟨item, hmem, hitem⟩ := List.any_eq_true.mp hany
          obtain ⟨c, hitem_eq, hc, hspec⟩ := (config_root_item_iff item).mp hitem
          exact ⟨m, List.mem_cons_self m rest, he, c, hitem_eq ▸ hmem, hc, hspec⟩
        · obtain ⟨m0, hm0, hrest⟩ := h
          exact ⟨m0, List.mem_cons_of_mem m hm0, hrest⟩
      · rintro ⟨m0, hm0, he0, c, hc_mem, hc_en, hspec⟩
        rcases List.mem_cons.mp hm0 with rfl | hm0r
        · left
          rw [Bool.and_eq_true]
          refine ⟨he0, List.any_eq_true.mpr ⟨ContentItem.cmd c, hc_mem, ?_⟩⟩
          exact (config_root_item_iff _).mpr ⟨c, rfl, hc_en, hspec⟩
        · right
          exact ⟨m0, hm0r, he0, c, hc_mem, hc_en, hspec⟩

/-- C10: calling `interpret_commands` on an empty message sequence with
`is_final_sequence = true` raises `IndexError` (from `message_sequence[-1]`)
before any message is visited, while the same call with
`is_final_sequence = false` returns normally with no effect: no message
output changes and the state is returned untouched. -/
theorem interpret_commands_empty_sequence (reg : List Action) (st : ExecutionState) :
    interpret_commands reg [] st true = .error .indexError ∧
    interpret_commands reg [] st false = .ok ([], st) :=
  ⟨rfl, rfl⟩

/-- C6: the command text `"= 5"` (assignment with no field name) does not
match the command grammar and is reported as an `unknown-command`
diagnostic, while `"field ="` (assignment with an all-whitespace
right-hand side) parses and is reported with the distinct
`skiping-empty-assignment` code; neither raises, and the latter leaves
the configuration untouched (the assignment is skipped). -/
theorem empty_assignment_vs_parse_failure (reg : List Action) (fm : Bool)
    (loc : SourceLocation) (st : ExecutionState) :
    _interpret_command reg "= 5" fm loc st =
      .ok (none, logError st "unknown-command" "couldn't interpret command '= 5'" loc) ∧
    _interpret_command reg "field =" fm loc st =
      .ok (none, logError st "skiping-empty-assignment"
        "skipping configuration assignment with no right-hand-side 'field ='" loc) ∧
    (logError st "skiping-empty-assignment"
        "skipping configuration assignment with no right-hand-side 'field ='" loc).root_config
      = st.root_config :=
  ⟨rfl, rfl, rfl⟩

/-- C4: when action lookup returns zero matches, `run_action` reports an
`action-not-found` diagnostic and the command's result is nothing; when it
returns more than one match, an `ambiguous-action-name` diagnostic naming
all matched qualified names is reported, the result is nothing, and no
action function is invoked (the outcome does not depend on any action's
function). -/
theorem run_action_lookup_failures (reg : List Action) (he : Bool) (name args : String)
    (loc : SourceLocation) (st : ExecutionState) :
    (lookup_action reg name = [] →
      run_action reg he name args loc st =
        .ok (none, logError st "action-not-found"
          ("couldn't run action '" ++ name ++ "'. action not found.") loc)) ∧
    (∀ a b rest, lookup_action reg name = a :: b :: rest →
      run_action reg he name args loc st =
        .ok (none, logError st "ambiguous-action-name"
          ("didn't run action '" ++ name ++ "'. action name is ambiguous, did you mean: "
            ++ _join_alternatives ((a :: b :: rest).map Action.qualified_name)) loc)) := by
  constructor
  · intro h
    unfold run_action
    rw [h]
  · intro a b rest h
    unfold run_action
    rw [h]

/-- C4 witness: with a registry of `ns1.act` and `ns2.act`, looking up the
unknown name `nope` reports `action-not-found`, and the bare name `act`
matches both registrations and reports `ambiguous-action-name` naming
them, with no invocation. -/
theorem run_action_lookup_failures_witness :
    run_action [actA, actB] false "nope" "" loc0 st0 =
      .ok (none, logError st0 "action-not-found"
        "couldn't run action 'nope'. action not found." loc0) ∧
    run_action [actA, actB] false "act" "" loc0 st0 =
      .ok (none, logError st0 "ambiguous-action-name"
        ("didn't run action 'act'. action name is ambiguous, did you mean: "
          ++ _join_alternatives ["ns1.act", "ns2.act"]) loc0) :=
  ⟨(run_action_lookup_failures [actA, actB] false "nope" "" loc0 st0).1 rfl,
   (run_action_lookup_failures [actA, actB] false "act" "" loc0 st0).2 actA actB [] rfl⟩

/-- C5: an action marked exclamation-only, dispatched from a command
written without a leading `!`, is refused: an
`excl-only-action-without-excl` error diagnostic is reported, the action's
function is not invoked (the outcome does not depend on it), and the
result is nothing. -/
theorem run_action_excl_only_refused (reg : List Action) (name args : String)
    (loc : SourceLocation) (st : ExecutionState) (a : Action)
    (hl : lookup_action reg name = [a]) (hx : a.exclamation_only = true) :
    run_action reg false name args loc st =
      .ok (none, logError st "excl-only-action-without-excl"
        ("didn't run action '" ++ name ++ "'. action is !-only but written without a '!'") loc) := by
  unfold run_action
  rw [hl]
  simp [hx]

/-- C5 witness: the exclamation-only action `test.net`, dispatched by bare
name without `!`, is refused with the diagnostic and nothing is run. -/
theorem run_action_excl_only_refused_witness :
    run_action [exclAct] false "net" "" loc0 st0 =
      .ok (none, logError st0 "excl-only-action-without-excl"
        "didn't run action 'net'. action is !-only but written without a '!'" loc0) :=
  run_action_excl_only_refused [exclAct] "net" "" loc0 st0 exclAct rfl rfl

/-- C2: resolving a configuration object with VarRef-backed fields yields,
for each such field, the referenced root path's current value when that
path has been explicitly assigned at least once since its default, and the
field's own locally assigned value otherwise; resolution is a plain
function of the current root configuration, recomputed on every read, so
an assignment made between two resolutions (second conjunct) is visible to
the later one. -/
theorem var_ref_resolution (cfg : PluginConfig) (var_refs : List (String × VarRef))
    (root : RootConfiguration) (n : String) (vr : VarRef) (v : ConfigValue) (fld : ConfigField)
    (hcfg : List.lookup n cfg.fields = some v)
    (hvr : List.lookup n var_refs = some vr)
    (hfld : List.lookup vr.target root.fields = some fld) :
    List.lookup n (resolve_var_refs cfg var_refs root).fields =
      some (if fld.explicitly_assigned then fld.value else v) ∧
    (∀ rhs loc log w, convertValue fld.type rhs = some w →
      List.lookup n (resolve_var_refs cfg var_refs
          (assign_field root vr.target rhs loc log).1).fields = some w) := by
  rcases cfg with ⟨l⟩
  constructor
  · rw [lookup_resolve_var_refs, hcfg]
    show some (resolveValue var_refs root n v) = _
    simp [resolveValue, hvr, hfld]
  · intro rhs loc log w hw
    simp only [assign_field, hfld, hw]
    rw [lookup_resolve_var_refs, hcfg]
    show some (resolveValue _ _ n v) = _
    simp [resolveValue, hvr, lookup_setAssoc_self]

/-- C2 witness: with local `temperature = 1` bound via VarRef to
`prapti.temperature`, resolution yields the local `1` while the root path
was never explicitly assigned, and yields `5` after the assignment
`prapti.temperature = 5` occurs between the two resolutions. -/
theorem var_ref_resolution_witness :
    List.lookup "temperature" (resolve_var_refs cfgT vrT rootT).fields = some (.int 1) ∧
    List.lookup "temperature"
        (resolve_var_refs cfgT vrT
          (assign_field rootT "prapti.temperature" "5" loc0 []).1).fields = some (.int 5) := by
  have h := var_ref_resolution cfgT vrT rootT "temperature" ⟨"prapti.temperature"⟩
    (.int 1) ⟨.int, .int 0, false⟩ rfl rfl rfl
  exact ⟨h.1, h.2 "5" loc0 [] (.int 5) (by decide)⟩

/-- C7: interpreting a valid assignment command `name = value` without a
leading `!` — the name resolves to a root-configuration field and the
stripped right-hand side converts to the field's declared type — stores
the converted value in that field (marking it explicitly assigned), emits
no result, and is idempotent: interpreting the same text again from the
resulting state reproduces that state exactly. -/
theorem assignment_sets_and_idempotent (reg : List Action) (text : String) (m : CommandMatch)
    (fm : Bool) (loc : SourceLocation) (st : ExecutionState) (fld : ConfigField) (v : ConfigValue)
    (hp : command_regex_match text = some m) (he : m.has_exclamation = false)
    (heq : m.equals_sign = true) (hne : ¬(pyStrip m.rhs_raw).length = 0)
    (hf : List.lookup m.name st.root_config.fields = some fld)
    (hv : convertValue fld.type (pyStrip m.rhs_raw) = some v) :
    _interpret_command reg text fm loc st =
      .ok (none, ⟨st.log, ⟨setAssoc st.root_config.fields m.name ⟨fld.type, v, true⟩⟩⟩) ∧
    List.lookup m.name (setAssoc st.root_config.fields m.name ⟨fld.type, v, true⟩) =
      some ⟨fld.type, v, true⟩ ∧
    _interpret_command reg text fm loc
        ⟨st.log, ⟨setAssoc st.root_config.fields m.name ⟨fld.type, v, true⟩⟩⟩ =
      .ok (none, ⟨st.log, ⟨setAssoc st.root_config.fields m.name ⟨fld.type, v, true⟩⟩⟩) := by
  refine ⟨?_, lookup_setAssoc_self _ _ _, ?_⟩
  · unfold _interpret_command
    rw [hp]
    simp only [he, Bool.not_false, Bool.true_or, if_true, heq, if_pos, if_neg hne]
    simp only [assign_field, hf, hv]
  · unfold _interpret_command
    rw [hp]
    simp only [he, Bool.not_false, Bool.true_or, if_true, heq, if_pos, if_neg hne]
    simp only [assign_field, lookup_setAssoc_self, hv, setAssoc_idem]

/-- C7 witness: interpreting `x = 5` over a state whose integer field `x`
still holds its default sets `x` to `5`, and interpreting the same text
again leaves the resulting state unchanged. -/
theorem assignment_sets_and_idempotent_witness :
    _interpret_command [] "x = 5" false loc0 st0 =
      .ok (none, ⟨[], ⟨[("x", ⟨.int, .int 5, true⟩)]⟩⟩) ∧
    _interpret_command [] "x = 5" false loc0 ⟨[], ⟨[("x", ⟨.int, .int 5, true⟩)]⟩⟩ =
      .ok (none, ⟨[], ⟨[("x", ⟨.int, .int 5, true⟩)]⟩⟩) := by
  have h := assignment_sets_and_idempotent [] "x = 5" ⟨false, "x", true, " 5"⟩ false loc0 st0
    ⟨.int, .int 0, false⟩ (.int 5) rfl rfl rfl (by decide) rfl (by decide)
  exact ⟨h.1, h.2.2⟩

/-- C8: when lookup yields exactly one match and the exclamation policy
permits execution, `run_action` invokes the matched action's function with
`(name, raw_args)` and an `ActionContext` built from the current state and
source location, and its outcome is passed through verbatim; moreover the
interpretation loop stores `_interpret_command`'s value unchanged — be it
nothing, a plain value, or a message — in the enabled command's result
slot. -/
theorem run_action_unique_dispatch (reg : List Action) (he : Bool) (name args : String)
    (loc : SourceLocation) (st : ExecutionState) (a : Action)
    (hl : lookup_action reg name = [a]) (hp : a.exclamation_only = true → he = true) :
    run_action reg he name args loc st = a.function name args ⟨st, loc⟩ ∧
    (∀ fm t old r st2, _interpret_command reg t fm loc st = .ok (r, st2) →
      interpretItems reg fm [.cmd (.mk t true loc old)] st =
        .ok ([.cmd (.mk t true loc r)], st2)) := by
  constructor
  · unfold run_action
    rw [hl]
    have hcond : (a.exclamation_only && !he) = false := by
      cases hae : a.exclamation_only
      · rfl
      · rw [hp hae]; rfl
    simp [hcond]
  · intro fm t old r st2 h
    simp only [interpretItems, h]
    rfl

/-- C8 witness: dispatching the uniquely-matched `test.hello` by bare name
runs its function on the raw arguments, and interpreting the command text
`hello x` stores the returned value `hi:x` verbatim in the command's
result slot. -/
theorem run_action_unique_dispatch_witness :
    run_action [helloAct] false "hello" "x" loc0 st0 =
      helloAct.function "hello" "x" ⟨st0, loc0⟩ ∧
    interpretItems [helloAct] false [.cmd (.mk "hello x" true loc0 none)] st0 =
      .ok ([.cmd (.mk "hello x" true loc0 (some (.str "hi:x")))], st0) := by
  have h := run_action_unique_dispatch [helloAct] false "hello" "x" loc0 st0 helloAct
    rfl (fun hx => Bool.noConfusion hx)
  exact ⟨h.1, h.2 false "hello x" none (some (.str "hi:x")) st0 rfl⟩

end Prapti
